import Mathlib

/-!
Verification of the soil-physics notebook `WRC_HCF/vanGenuchen-Mualem.ipynb`.

The notebook defines one scalar/vectorized function `VGM_theta_K`, a
parameter table `VGM_parameters`, and a grid of matric potentials
`psi = -10**np.arange(0, 6, 0.1)`; it then evaluates the function on the
grid and plots.  We embed the numerical content shallowly over `ℝ`,
translating Python's float `**` on positive bases as `Real.rpow`
(the Mathlib `HPow ℝ ℝ ℝ` instance).  NumPy's behaviour on a negative
base with a non-integral exponent (a `nan` result, no exception) is
modelled separately by an `Option ℝ`-valued power `np_pow`, with `none`
standing for `nan`/undefined; division guards in the `Option`-valued
evaluator model the places where the source divides by `n` and by `m`.
-/

namespace SoilPhysics

/-- Source line `m = 1 - 1/n` of `VGM_theta_K`. -/
noncomputable def VGM_m (n : ℝ) : ℝ := 1 - 1 / n

/-- Source line `S_e = (1 + (-alpha*psi)**n)**(-m)` of `VGM_theta_K`. -/
noncomputable def VGM_Se (psi alpha n : ℝ) : ℝ :=
  (1 + (-alpha * psi) ^ n) ^ (-(VGM_m n))

/-- The notebook function
```
def VGM_theta_K(psi, theta_r, theta_s, alpha, n, K_s, l):
    m = 1 - 1/n
    S_e = (1 + (-alpha*psi)**n)**(-m)
    theta =  S_e * (theta_s - theta_r) + theta_r
    K = K_s*S_e**l*(1-(1-S_e**(1/m))**m)**2
    return theta, K
```
embedded over `ℝ`, with the intermediates `m` and `S_e` named
`VGM_m`/`VGM_Se` above. -/
noncomputable def VGM_theta_K (psi theta_r theta_s alpha n K_s l : ℝ) : ℝ × ℝ :=
  (VGM_Se psi alpha n * (theta_s - theta_r) + theta_r,
   K_s * VGM_Se psi alpha n ^ l *
     (1 - (1 - VGM_Se psi alpha n ^ (1 / VGM_m n)) ^ VGM_m n) ^ (2 : ℕ))

open Classical in
/-- NumPy float semantics of `x ** y` (element of an array): defined and
equal to the real power when the base is positive; `0 ** y` is the real
power `0 ^ y` for `y ≥ 0` (so `0 ** 0 = 1`, `0 ** y = 0` for `y > 0`) and
undefined (`inf`) for `y < 0`; a negative base gives the real value
`x ^ k` when the exponent is an integer `k` (where `Real.rpow` agrees,
by `Real.rpow_intCast`) and `nan` — modelled as `none` — otherwise.
No branch raises an exception. -/
noncomputable def np_pow (x y : ℝ) : Option ℝ :=
  if 0 < x then some (x ^ y)
  else if x = 0 then (if 0 ≤ y then some (x ^ y) else none)
  else if ∃ k : ℤ, (k : ℝ) = y then some (x ^ y)
  else none

/-- The body of `VGM_theta_K` with every float power interpreted by
`np_pow` and with explicit guards at the two divisions (`1/n` in
`m = 1 - 1/n` and `1/m` in `S_e**(1/m)`); `none` means that the
computation produced a non-real (`nan`/`inf`) value somewhere. -/
noncomputable def VGM_theta_K_np (psi theta_r theta_s alpha n K_s l : ℝ) :
    Option (ℝ × ℝ) :=
  if n = 0 then none else
  if VGM_m n = 0 then none else
  do
    let t ← np_pow (-alpha * psi) n
    let S_e ← np_pow (1 + t) (-(VGM_m n))
    let theta := S_e * (theta_s - theta_r) + theta_r
    let a ← np_pow S_e (1 / VGM_m n)
    let b ← np_pow (1 - a) (VGM_m n)
    let c ← np_pow S_e l
    some (theta, K_s * c * (1 - b) ^ (2 : ℕ))

/- Basic facts about the effective saturation, shared by several
theorems below. -/

theorem VGM_m_pos {n : ℝ} (hn : 1 < n) : 0 < VGM_m n := by
  have hn0 : 0 < n := lt_trans one_pos hn
  have : 1 / n < 1 := by
    rw [div_lt_one hn0]; exact hn
  simpa [VGM_m] using sub_pos.mpr this

theorem VGM_base_pos {psi alpha n : ℝ} (hpsi : psi < 0) (halpha : 0 < alpha) :
    0 < -alpha * psi := by
  have := mul_pos halpha (neg_pos.mpr hpsi)
  linarith [this]

theorem VGM_one_lt_base {psi alpha n : ℝ} (hpsi : psi < 0) (halpha : 0 < alpha) :
    1 < 1 + (-alpha * psi) ^ n := by
  have hb : 0 < -alpha * psi := VGM_base_pos (n := n) hpsi halpha
  have := Real.rpow_pos_of_pos hb n
  linarith

theorem VGM_Se_pos {psi alpha n : ℝ} (hpsi : psi < 0) (halpha : 0 < alpha) :
    0 < VGM_Se psi alpha n := by
  have h1 : (0:ℝ) < 1 + (-alpha * psi) ^ n :=
    lt_trans one_pos (VGM_one_lt_base hpsi halpha)
  exact Real.rpow_pos_of_pos h1 _

theorem VGM_Se_lt_one {psi alpha n : ℝ} (hpsi : psi < 0) (halpha : 0 < alpha)
    (hn : 1 < n) : VGM_Se psi alpha n < 1 := by
  have hm : 0 < VGM_m n := VGM_m_pos hn
  exact Real.rpow_lt_one_of_one_lt_of_neg (VGM_one_lt_base hpsi halpha)
    (neg_lt_zero.mpr hm)

/-- C1: for `psi < 0`, `theta_r < theta_s`, `alpha > 0` and `n > 1`, the
water content returned by `VGM_theta_K` equals
`theta_r + (theta_s - theta_r) / (1 + (-alpha*psi)^n)^m` with `m = 1 - 1/n`
(the van Genuchten retention curve). -/
theorem VGM_theta_eq_van_genuchten
    (psi theta_r theta_s alpha n K_s l : ℝ)
    (hpsi : psi < 0) (hts : theta_r < theta_s) (halpha : 0 < alpha)
    (hn : 1 < n) :
    (VGM_theta_K psi theta_r theta_s alpha n K_s l).1 =
      theta_r + (theta_s - theta_r) /
        (1 + (-alpha * psi) ^ n) ^ (1 - 1 / n) := by
  have h1 : (0:ℝ) ≤ 1 + (-alpha * psi) ^ n :=
    le_of_lt (lt_trans one_pos (VGM_one_lt_base hpsi halpha))
  simp only [VGM_theta_K, VGM_Se, VGM_m]
  rw [Real.rpow_neg h1]
  ring

/-- Witness for C1 at `psi = -1`, `theta_r = 0`, `theta_s = 1`,
`alpha = 1`, `n = 2`, `K_s = 1`, `l = 1`. -/
theorem VGM_theta_eq_van_genuchten_witness :
    (VGM_theta_K (-1) 0 1 1 2 1 1).1 =
      0 + (1 - 0) / (1 + (-1 * (-1:ℝ)) ^ (2:ℝ)) ^ ((1:ℝ) - 1 / 2) :=
  VGM_theta_eq_van_genuchten (-1) 0 1 1 2 1 1 (by norm_num) (by norm_num)
    (by norm_num) (by norm_num)

theorem np_pow_of_pos {x : ℝ} (hx : 0 < x) (y : ℝ) :
    np_pow x y = some (x ^ y) := by
  simp [np_pow, hx]

/-- C2: for `psi < 0`, `alpha > 0`, `n > 1` and `K_s > 0`, the hydraulic
conductivity returned by `VGM_theta_K` equals
`K_s * S_e^l * (1 - (1 - S_e^(1/m))^m)^2` with `m = 1 - 1/n` and
`S_e = (1 + (-alpha*psi)^n)^(-m)` (the Mualem conductivity function). -/
theorem VGM_K_eq_mualem
    (psi theta_r theta_s alpha n K_s l : ℝ)
    (hpsi : psi < 0) (halpha : 0 < alpha) (hn : 1 < n) (hKs : 0 < K_s) :
    (VGM_theta_K psi theta_r theta_s alpha n K_s l).2 =
      K_s * ((1 + (-alpha * psi) ^ n) ^ (-(1 - 1 / n))) ^ l *
        (1 - (1 - ((1 + (-alpha * psi) ^ n) ^ (-(1 - 1 / n))) ^
          (1 / (1 - 1 / n))) ^ (1 - 1 / n)) ^ (2 : ℕ) := by
  simp [VGM_theta_K, VGM_Se, VGM_m]

/-- Witness for C2 at `psi = -1`, `theta_r = 0`, `theta_s = 1`,
`alpha = 1`, `n = 2`, `K_s = 1`, `l = 1`. -/
theorem VGM_K_eq_mualem_witness :
    (VGM_theta_K (-1) 0 1 1 2 1 1).2 =
      1 * ((1 + (-1 * (-1:ℝ)) ^ (2:ℝ)) ^ (-((1:ℝ) - 1 / 2))) ^ (1:ℝ) *
        (1 - (1 - ((1 + (-1 * (-1:ℝ)) ^ (2:ℝ)) ^ (-((1:ℝ) - 1 / 2))) ^
          ((1:ℝ) / (1 - 1 / 2))) ^ ((1:ℝ) - 1 / 2)) ^ (2 : ℕ) :=
  VGM_K_eq_mualem (-1) 0 1 1 2 1 1 (by norm_num) (by norm_num) (by norm_num)
    (by norm_num)

/-- C3: for `psi < 0`, `theta_r < theta_s`, `alpha > 0` and `n > 1`, the
returned water content normalizes to the effective saturation:
`(theta - theta_r) / (theta_s - theta_r) = S_e` with
`S_e = (1 + (-alpha*psi)^n)^(-m)`, and `0 < S_e < 1`. -/
theorem VGM_effective_saturation
    (psi theta_r theta_s alpha n K_s l : ℝ)
    (hpsi : psi < 0) (hts : theta_r < theta_s) (halpha : 0 < alpha)
    (hn : 1 < n) :
    ((VGM_theta_K psi theta_r theta_s alpha n K_s l).1 - theta_r) /
        (theta_s - theta_r) =
      (1 + (-alpha * psi) ^ n) ^ (-(1 - 1 / n)) ∧
    0 < (1 + (-alpha * psi) ^ n) ^ (-(1 - 1 / n)) ∧
    (1 + (-alpha * psi) ^ n) ^ (-(1 - 1 / n)) < 1 := by
  have hSe : 0 < VGM_Se psi alpha n := VGM_Se_pos hpsi halpha
  have hSe1 : VGM_Se psi alpha n < 1 := VGM_Se_lt_one hpsi halpha hn
  have hne : theta_s - theta_r ≠ 0 := ne_of_gt (sub_pos.mpr hts)
  refine ⟨?_, ?_, ?_⟩
  · rw [div_eq_iff hne]
    simp only [VGM_theta_K, VGM_Se, VGM_m]
    ring
  · simpa [VGM_Se, VGM_m] using hSe
  · simpa [VGM_Se, VGM_m] using hSe1

/-- Witness for C3 at `psi = -1`, `theta_r = 0`, `theta_s = 1`,
`alpha = 1`, `n = 2`, `K_s = 1`, `l = 1`. -/
theorem VGM_effective_saturation_witness :
    ((VGM_theta_K (-1) 0 1 1 2 1 1).1 - 0) / (1 - 0) =
      (1 + (-1 * (-1:ℝ)) ^ (2:ℝ)) ^ (-((1:ℝ) - 1 / 2)) ∧
    0 < (1 + (-1 * (-1:ℝ)) ^ (2:ℝ)) ^ (-((1:ℝ) - 1 / 2)) ∧
    (1 + (-1 * (-1:ℝ)) ^ (2:ℝ)) ^ (-((1:ℝ) - 1 / 2)) < 1 :=
  VGM_effective_saturation (-1) 0 1 1 2 1 1 (by norm_num) (by norm_num)
    (by norm_num) (by norm_num)

/-- C4: under the precondition `psi < 0`, `theta_r < theta_s`,
`alpha > 0`, `n > 1`, `K_s > 0`, the evaluation of `VGM_theta_K` is
everywhere well defined: the divisions by `n` and by `m = 1 - 1/n` are
not by zero, every real power has a strictly positive base
(`-alpha*psi > 0`, `S_e > 0`, `1 - S_e^(1/m) > 0`), and the guarded
NumPy-semantics evaluator `VGM_theta_K_np` reaches no error branch,
returning exactly the real-valued result. -/
theorem VGM_theta_K_well_defined
    (psi theta_r theta_s alpha n K_s l : ℝ)
    (hpsi : psi < 0) (hts : theta_r < theta_s) (halpha : 0 < alpha)
    (hn : 1 < n) (hKs : 0 < K_s) :
    n ≠ 0 ∧ VGM_m n ≠ 0 ∧ 0 < -alpha * psi ∧ 0 < VGM_Se psi alpha n ∧
    0 < 1 - VGM_Se psi alpha n ^ (1 / VGM_m n) ∧
    VGM_theta_K_np psi theta_r theta_s alpha n K_s l =
      some (VGM_theta_K psi theta_r theta_s alpha n K_s l) := by
  have hn0 : n ≠ 0 := ne_of_gt (lt_trans one_pos hn)
  have hm : 0 < VGM_m n := VGM_m_pos hn
  have hm0 : VGM_m n ≠ 0 := ne_of_gt hm
  have hb : 0 < -alpha * psi := VGM_base_pos (n := n) hpsi halpha
  have hbase1 : (0:ℝ) < 1 + (-alpha * psi) ^ n :=
    lt_trans one_pos (VGM_one_lt_base hpsi halpha)
  have hSe : 0 < VGM_Se psi alpha n := VGM_Se_pos hpsi halpha
  have hSe1 : VGM_Se psi alpha n < 1 := VGM_Se_lt_one hpsi halpha hn
  have h1m : 0 < 1 / VGM_m n := by positivity
  have hfrac : VGM_Se psi alpha n ^ (1 / VGM_m n) < 1 :=
    Real.rpow_lt_one hSe.le hSe1 h1m
  have hpos2 : 0 < 1 - VGM_Se psi alpha n ^ (1 / VGM_m n) := by linarith
  refine ⟨hn0, hm0, hb, hSe, hpos2, ?_⟩
  have hSe' : np_pow (1 + (-alpha * psi) ^ n) (-(VGM_m n)) =
      some (VGM_Se psi alpha n) := np_pow_of_pos hbase1 _
  rw [VGM_theta_K_np, if_neg hn0, if_neg hm0]
  simp only [np_pow_of_pos hb, hSe', np_pow_of_pos hSe, np_pow_of_pos hpos2,
    Option.bind_eq_bind, Option.some_bind]
  rfl

/-- Witness for C4 at `psi = -1`, `theta_r = 0`, `theta_s = 1`,
`alpha = 1`, `n = 2`, `K_s = 1`, `l = 1`. -/
theorem VGM_theta_K_well_defined_witness :
    (2:ℝ) ≠ 0 ∧ VGM_m 2 ≠ 0 ∧ (0:ℝ) < -1 * (-1) ∧
    0 < VGM_Se (-1) 1 2 ∧
    0 < 1 - VGM_Se (-1) 1 2 ^ (1 / VGM_m 2) ∧
    VGM_theta_K_np (-1) 0 1 1 2 1 1 = some (VGM_theta_K (-1) 0 1 1 2 1 1) :=
  VGM_theta_K_well_defined (-1) 0 1 1 2 1 1 (by norm_num) (by norm_num)
    (by norm_num) (by norm_num) (by norm_num)

/-- The notebook's parameter dictionary (van Genuchten, 1980; units cm, day):
```
VGM_parameters = {"sandy_loam": [0.065, 0.41, 0.075, 1.89, 106.1, 0.5],
                  "loam": [0.078, 0.43, 0.036, 1.56, 24.96, 0.5],
                  "silt_loam": [0.067, 0.45, 0.02, 1.41, 10.8, 0.5]}
```
embedded as an association list over `ℚ`, entries in source order,
each value the tuple `(theta_r, theta_s, alpha, n, K_s, l)`. -/
def VGM_parameters : List (String × (ℚ × ℚ × ℚ × ℚ × ℚ × ℚ)) :=
  [("sandy_loam", (0.065, 0.41, 0.075, 1.89, 106.1, 0.5)),
   ("loam", (0.078, 0.43, 0.036, 1.56, 24.96, 0.5)),
   ("silt_loam", (0.067, 0.45, 0.02, 1.41, 10.8, 0.5))]

/-- C7: the parameter table holds exactly the three soil types
`sandy_loam`, `loam` and `silt_loam`, in that order, each mapped to
exactly the literal six-tuple `(theta_r, theta_s, alpha, n, K_s, l)`
of the source. -/
theorem VGM_parameters_exact :
    VGM_parameters.length = 3 ∧
    VGM_parameters.map Prod.fst = ["sandy_loam", "loam", "silt_loam"] ∧
    VGM_parameters.lookup "sandy_loam" =
      some (0.065, 0.41, 0.075, 1.89, 106.1, 0.5) ∧
    VGM_parameters.lookup "loam" =
      some (0.078, 0.43, 0.036, 1.56, 24.96, 0.5) ∧
    VGM_parameters.lookup "silt_loam" =
      some (0.067, 0.45, 0.02, 1.41, 10.8, 0.5) := by
  refine ⟨rfl, rfl, ?_, ?_, ?_⟩ <;> rfl

theorem VGM_theta_range (psi theta_r theta_s alpha n K_s l : ℝ)
    (hpsi : psi < 0) (hts : theta_r < theta_s) (halpha : 0 < alpha)
    (hn : 1 < n) (h0 : 0 ≤ theta_r) (h1 : theta_s ≤ 1) :
    theta_r < (VGM_theta_K psi theta_r theta_s alpha n K_s l).1 ∧
    (VGM_theta_K psi theta_r theta_s alpha n K_s l).1 < theta_s ∧
    0 < (VGM_theta_K psi theta_r theta_s alpha n K_s l).1 ∧
    (VGM_theta_K psi theta_r theta_s alpha n K_s l).1 < 1 := by
  have hSe : 0 < VGM_Se psi alpha n := VGM_Se_pos hpsi halpha
  have hSe1 : VGM_Se psi alpha n < 1 := VGM_Se_lt_one hpsi halpha hn
  have hd : 0 < theta_s - theta_r := sub_pos.mpr hts
  simp only [VGM_theta_K]
  have hlow : theta_r < VGM_Se psi alpha n * (theta_s - theta_r) + theta_r :=
    by nlinarith
  have hhigh : VGM_Se psi alpha n * (theta_s - theta_r) + theta_r < theta_s :=
    by nlinarith
  exact ⟨hlow, hhigh, by linarith, by linarith⟩

/-- C5: for every soil type in `VGM_parameters` and every `psi < 0`, the
water content returned by `VGM_theta_K` lies strictly between that
soil's `theta_r` and `theta_s`, and hence strictly between `0` and
`1`. -/
theorem VGM_parameters_theta_in_range
    (p : String × (ℚ × ℚ × ℚ × ℚ × ℚ × ℚ)) (hp : p ∈ VGM_parameters)
    (psi : ℝ) (hpsi : psi < 0) :
    (p.2.1 : ℝ) < (VGM_theta_K psi (p.2.1 : ℝ) (p.2.2.1 : ℝ) (p.2.2.2.1 : ℝ)
      (p.2.2.2.2.1 : ℝ) (p.2.2.2.2.2.1 : ℝ) (p.2.2.2.2.2.2 : ℝ)).1 ∧
    (VGM_theta_K psi (p.2.1 : ℝ) (p.2.2.1 : ℝ) (p.2.2.2.1 : ℝ)
      (p.2.2.2.2.1 : ℝ) (p.2.2.2.2.2.1 : ℝ) (p.2.2.2.2.2.2 : ℝ)).1 <
      (p.2.2.1 : ℝ) ∧
    0 < (VGM_theta_K psi (p.2.1 : ℝ) (p.2.2.1 : ℝ) (p.2.2.2.1 : ℝ)
      (p.2.2.2.2.1 : ℝ) (p.2.2.2.2.2.1 : ℝ) (p.2.2.2.2.2.2 : ℝ)).1 ∧
    (VGM_theta_K psi (p.2.1 : ℝ) (p.2.2.1 : ℝ) (p.2.2.2.1 : ℝ)
      (p.2.2.2.2.1 : ℝ) (p.2.2.2.2.2.1 : ℝ) (p.2.2.2.2.2.2 : ℝ)).1 < 1 := by
  fin_cases hp <;>
    exact VGM_theta_range _ _ _ _ _ _ _ hpsi (by norm_num) (by norm_num)
      (by norm_num) (by norm_num) (by norm_num)

/-- Witness for C5 at the `sandy_loam` entry and `psi = -1`. -/
theorem VGM_parameters_theta_in_range_witness :
    ((0.065:ℚ) : ℝ) <
      (VGM_theta_K (-1) ((0.065:ℚ) : ℝ) ((0.41:ℚ) : ℝ) ((0.075:ℚ) : ℝ)
        ((1.89:ℚ) : ℝ) ((106.1:ℚ) : ℝ) ((0.5:ℚ) : ℝ)).1 ∧
    (VGM_theta_K (-1) ((0.065:ℚ) : ℝ) ((0.41:ℚ) : ℝ) ((0.075:ℚ) : ℝ)
      ((1.89:ℚ) : ℝ) ((106.1:ℚ) : ℝ) ((0.5:ℚ) : ℝ)).1 < ((0.41:ℚ) : ℝ) ∧
    0 < (VGM_theta_K (-1) ((0.065:ℚ) : ℝ) ((0.41:ℚ) : ℝ) ((0.075:ℚ) : ℝ)
      ((1.89:ℚ) : ℝ) ((106.1:ℚ) : ℝ) ((0.5:ℚ) : ℝ)).1 ∧
    (VGM_theta_K (-1) ((0.065:ℚ) : ℝ) ((0.41:ℚ) : ℝ) ((0.075:ℚ) : ℝ)
      ((1.89:ℚ) : ℝ) ((106.1:ℚ) : ℝ) ((0.5:ℚ) : ℝ)).1 < 1 :=
  VGM_parameters_theta_in_range
    ("sandy_loam", (0.065, 0.41, 0.075, 1.89, 106.1, 0.5))
    (by simp [VGM_parameters]) (-1) (by norm_num)

/-- The NumPy function `np.arange(start, stop, step)` for a positive
rational step: the values `start + i*step` for
`i = 0, ..., ⌈(stop-start)/step⌉ - 1`. -/
def np_arange (start stop step : ℚ) : List ℚ :=
  (List.range (Int.toNat ⌈(stop - start) / step⌉)).map
    (fun i : ℕ => start + (i : ℚ) * step)

/-- Source line `log10_h = np.arange(0, 6, 0.1)` (logarithm of suction in
cm), with the step read as the exact rational `1/10`. -/
def log10_h : List ℚ := np_arange 0 6 (1 / 10)

/-- Source line `psi = -10**log10_h`: the matric-potential grid. -/
noncomputable def psi_list : List ℝ :=
  log10_h.map (fun x : ℚ => -(10:ℝ) ^ ((x : ℝ)))

/-- The grid as the spec describes it: the 60 values
`psi_k = -10^(0.1*k)` for `k = 0, ..., 59`. -/
noncomputable def spec_psi_grid : List ℝ :=
  (List.range 60).map (fun k : ℕ => -(10:ℝ) ^ ((0.1:ℝ) * (k : ℝ)))

theorem arange_count : Int.toNat ⌈(((6:ℚ) - 0) / (1 / 10) : ℚ)⌉ = 60 := by
  have h1 : (((6:ℚ) - 0) / (1 / 10) : ℚ) = ((60:ℤ) : ℚ) := by norm_num
  rw [h1, Int.ceil_intCast]
  rfl

theorem psi_list_length : psi_list.length = 60 := by
  simp only [psi_list, log10_h, np_arange, List.length_map, List.length_range]
  exact arange_count

/-- C6: the fixed matric-potential grid consists of exactly the 60
values `psi_k = -10^(0.1*k)`, `k = 0, ..., 59`; every grid value is
strictly negative and the sequence is strictly decreasing. -/
theorem psi_grid_exact (i j : ℕ) (hi : i < psi_list.length)
    (hj : j < psi_list.length) (hij : i < j) :
    psi_list = spec_psi_grid ∧ psi_list.length = 60 ∧
    psi_list.get ⟨i, hi⟩ < 0 ∧
    psi_list.get ⟨j, hj⟩ < psi_list.get ⟨i, hi⟩ := by
  have hlen : psi_list.length = 60 := psi_list_length
  have hcast : ∀ k : ℕ, (((0 : ℚ) + (k : ℚ) * (1 / 10) : ℚ) : ℝ) =
      ((k : ℝ)) * (1 / 10) := by
    intro k; push_cast; ring
  have hget : ∀ k (hk : k < psi_list.length),
      psi_list.get ⟨k, hk⟩ = -(10:ℝ) ^ (((k : ℝ)) * (1 / 10)) := by
    intro k hk
    simp only [psi_list, log10_h, np_arange, List.get_eq_getElem,
      List.getElem_map, List.getElem_range]
    rw [hcast k]
  refine ⟨?_, hlen, ?_, ?_⟩
  · simp only [psi_list, log10_h, np_arange, spec_psi_grid, List.map_map,
      arange_count]
    apply List.map_congr_left
    intro a ha
    simp only [Function.comp]
    rw [hcast a]
    norm_num [mul_comm]
  · rw [hget i hi]
    have := Real.rpow_pos_of_pos (by norm_num : (0:ℝ) < 10)
      (((i : ℝ)) * (1 / 10))
    linarith
  · rw [hget i hi, hget j hj]
    have hexp : ((i : ℝ)) * (1 / 10) < ((j : ℝ)) * (1 / 10) := by
      have : (i : ℝ) < (j : ℝ) := Nat.cast_lt.mpr hij
      linarith
    have := Real.rpow_lt_rpow_of_exponent_lt (by norm_num : (1:ℝ) < 10) hexp
    linarith

/-- Witness for C6 at indices `i = 0`, `j = 1`. -/
theorem psi_grid_exact_witness :
    psi_list = spec_psi_grid ∧ psi_list.length = 60 ∧
    psi_list.get ⟨0, by rw [psi_list_length]; omega⟩ < 0 ∧
    psi_list.get ⟨1, by rw [psi_list_length]; omega⟩ <
      psi_list.get ⟨0, by rw [psi_list_length]; omega⟩ :=
  psi_grid_exact 0 1 (by rw [psi_list_length]; omega)
    (by rw [psi_list_length]; omega) (by norm_num)

/-- The vectorized body of `VGM_theta_K` applied to an array `psi`,
operation by operation as NumPy broadcasts them: line
`S_e = (1 + (-alpha*psi)**n)**(-m)` (each scalar-array operation is an
elementwise map). -/
noncomputable def VGM_Se_arr (psi : List ℝ) (alpha n : ℝ) : List ℝ :=
  ((psi.map (fun x => -alpha * x)).map (fun x => x ^ n)).map
    (fun x => (1 + x) ^ (-(VGM_m n)))

/-- Vectorized line `theta = S_e * (theta_s - theta_r) + theta_r`. -/
noncomputable def VGM_theta_arr (psi : List ℝ) (theta_r theta_s alpha n : ℝ) :
    List ℝ :=
  ((VGM_Se_arr psi alpha n).map (fun x => x * (theta_s - theta_r))).map
    (fun x => x + theta_r)

/-- Vectorized line `K = K_s*S_e**l*(1-(1-S_e**(1/m))**m)**2`; the final
array-array product is an elementwise `zipWith`. -/
noncomputable def VGM_K_arr (psi : List ℝ) (alpha n K_s l : ℝ) : List ℝ :=
  List.zipWith (fun u v => u * v)
    ((VGM_Se_arr psi alpha n).map (fun x => K_s * x ^ l))
    (((((VGM_Se_arr psi alpha n).map (fun x => x ^ (1 / VGM_m n))).map
        (fun x => 1 - x)).map (fun x => x ^ VGM_m n)).map
      (fun x => (1 - x) ^ (2 : ℕ)))

/-- The pair returned by the vectorized call
`theta, K = VGM_theta_K(psi, *VGM_parameters[soil])`. -/
noncomputable def VGM_theta_K_arr (psi : List ℝ)
    (theta_r theta_s alpha n K_s l : ℝ) : List ℝ × List ℝ :=
  (VGM_theta_arr psi theta_r theta_s alpha n, VGM_K_arr psi alpha n K_s l)

/-- C8: the vectorized evaluation equals the elementwise application of
the scalar closed form: both returned arrays have the length of `psi`,
and the `i`-th entries equal `VGM_theta_K` applied to `psi[i]` alone. -/
theorem VGM_theta_K_arr_elementwise (psi : List ℝ)
    (theta_r theta_s alpha n K_s l : ℝ) (i : ℕ) (hi : i < psi.length) :
    (VGM_theta_K_arr psi theta_r theta_s alpha n K_s l).1.length =
      psi.length ∧
    (VGM_theta_K_arr psi theta_r theta_s alpha n K_s l).2.length =
      psi.length ∧
    (VGM_theta_K_arr psi theta_r theta_s alpha n K_s l).1[i]? =
      some ((VGM_theta_K psi[i] theta_r theta_s alpha n K_s l).1) ∧
    (VGM_theta_K_arr psi theta_r theta_s alpha n K_s l).2[i]? =
      some ((VGM_theta_K psi[i] theta_r theta_s alpha n K_s l).2) := by
  refine ⟨?_, ?_, ?_, ?_⟩
  · simp [VGM_theta_K_arr, VGM_theta_arr, VGM_Se_arr]
  · simp [VGM_theta_K_arr, VGM_K_arr, VGM_Se_arr]
  · simp only [VGM_theta_K_arr, VGM_theta_arr, VGM_Se_arr, VGM_theta_K,
      VGM_Se, List.getElem?_map]
    rw [List.getElem?_eq_getElem hi]
    rfl
  · simp only [VGM_theta_K_arr, VGM_K_arr, VGM_Se_arr, VGM_theta_K, VGM_Se,
      List.getElem?_zipWith, List.getElem?_map]
    rw [List.getElem?_eq_getElem hi]
    rfl

/-- Witness for C8 at `psi = [-1, -2]`, `i = 1`, parameters
`theta_r = 0`, `theta_s = 1`, `alpha = 1`, `n = 2`, `K_s = 1`, `l = 1`. -/
theorem VGM_theta_K_arr_elementwise_witness :
    (VGM_theta_K_arr [-1, -2] 0 1 1 2 1 1).1.length = 2 ∧
    (VGM_theta_K_arr [-1, -2] 0 1 1 2 1 1).2.length = 2 ∧
    (VGM_theta_K_arr [-1, -2] 0 1 1 2 1 1).1[1]? =
      some ((VGM_theta_K (-2) 0 1 1 2 1 1).1) ∧
    (VGM_theta_K_arr [-1, -2] 0 1 1 2 1 1).2[1]? =
      some ((VGM_theta_K (-2) 0 1 1 2 1 1).2) :=
  VGM_theta_K_arr_elementwise [-1, -2] 0 1 1 2 1 1 1 (by norm_num)

/-- C9: for fixed parameters with `theta_r < theta_s`, `alpha > 0` and
`n > 1`, the water content returned by `VGM_theta_K` is strictly
increasing in `psi` on `psi < 0`: less suction means more water. -/
theorem VGM_theta_strictMono
    (theta_r theta_s alpha n K_s l psi1 psi2 : ℝ)
    (hts : theta_r < theta_s) (halpha : 0 < alpha) (hn : 1 < n)
    (h12 : psi1 < psi2) (h2 : psi2 < 0) :
    (VGM_theta_K psi1 theta_r theta_s alpha n K_s l).1 <
      (VGM_theta_K psi2 theta_r theta_s alpha n K_s l).1 := by
  have h1 : psi1 < 0 := lt_trans h12 h2
  have hb2 : 0 < -alpha * psi2 := VGM_base_pos (n := n) h2 halpha
  have hb12 : -alpha * psi2 < -alpha * psi1 := by nlinarith
  have hn0 : 0 < n := lt_trans one_pos hn
  have hX : (-alpha * psi2) ^ n < (-alpha * psi1) ^ n :=
    Real.rpow_lt_rpow hb2.le hb12 hn0
  have hbase2 : (0:ℝ) < 1 + (-alpha * psi2) ^ n :=
    lt_trans one_pos (VGM_one_lt_base h2 halpha)
  have hm : 0 < VGM_m n := VGM_m_pos hn
  have hSe : VGM_Se psi1 alpha n < VGM_Se psi2 alpha n := by
    unfold VGM_Se
    exact Real.rpow_lt_rpow_of_exponent_neg hbase2 (by linarith)
      (neg_lt_zero.mpr hm)
  have hd : 0 < theta_s - theta_r := sub_pos.mpr hts
  simp only [VGM_theta_K]
  nlinarith

/-- Witness for C9 at `psi1 = -2 < psi2 = -1`, `theta_r = 0`,
`theta_s = 1`, `alpha = 1`, `n = 2`, `K_s = 1`, `l = 1`. -/
theorem VGM_theta_strictMono_witness :
    (VGM_theta_K (-2) 0 1 1 2 1 1).1 < (VGM_theta_K (-1) 0 1 1 2 1 1).1 :=
  VGM_theta_strictMono 0 1 1 2 1 1 (-2) (-1) (by norm_num) (by norm_num)
    (by norm_num) (by norm_num) (by norm_num)

theorem np_pow_none {x y : ℝ} (hx : x < 0) (hy : ¬ ∃ k : ℤ, (k : ℝ) = y) :
    np_pow x y = none := by
  rw [np_pow, if_neg (not_lt.mpr hx.le), if_neg (ne_of_lt hx), if_neg hy]

/-- C10: `VGM_theta_K` does not validate its precondition that `psi` is
negative: under NumPy float semantics a positive `psi` (with `alpha > 0`
and non-integral `n`) raises no exception, but the power
`(-alpha*psi)**n` has a negative base with a non-integer exponent, so
the whole evaluation yields `nan` — in the model, `none`, no real
result. -/
theorem VGM_theta_K_np_positive_psi
    (psi theta_r theta_s alpha n K_s l : ℝ)
    (hpsi : 0 < psi) (halpha : 0 < alpha)
    (hnint : ¬ ∃ k : ℤ, (k : ℝ) = n) :
    -alpha * psi < 0 ∧
    VGM_theta_K_np psi theta_r theta_s alpha n K_s l = none := by
  have hb : -alpha * psi < 0 := by nlinarith
  have hn0 : n ≠ 0 := by
    intro h
    exact hnint ⟨0, by simp [h]⟩
  have hm0 : VGM_m n ≠ 0 := by
    intro h
    have : n = 1 := by
      field_simp [VGM_m] at h
      linarith
    exact hnint ⟨1, by simp [this]⟩
  refine ⟨hb, ?_⟩
  rw [VGM_theta_K_np, if_neg hn0, if_neg hm0]
  simp only [np_pow_none hb hnint, Option.bind_eq_bind, Option.none_bind]

theorem not_int_three_halves : ¬ ∃ k : ℤ, (k : ℝ) = (3 : ℝ) / 2 := by
  rintro ⟨k, hk⟩
  have h2 : ((2 * k : ℤ) : ℝ) = ((3 : ℤ) : ℝ) := by push_cast; linarith
  have h3 : (2 * k : ℤ) = 3 := Int.cast_injective h2
  omega

/-- Witness for C10 at `psi = 1`, `theta_r = 0`, `theta_s = 1`,
`alpha = 1`, `n = 3/2`, `K_s = 1`, `l = 1`. -/
theorem VGM_theta_K_np_positive_psi_witness :
    -(1:ℝ) * 1 < 0 ∧ VGM_theta_K_np 1 0 1 1 ((3:ℝ)/2) 1 1 = none :=
  VGM_theta_K_np_positive_psi 1 0 1 1 ((3:ℝ)/2) 1 1 (by norm_num)
    (by norm_num) not_int_three_halves

end SoilPhysics
